import Mathlib

/-!
# DODOSwap event decoding (`protocols/dodo_swap/dodo_swap.go`)

A shallow embedding of the Go package `dodo_swap` and proofs about it.

* Go `byte` is `Fin 256`; `[]byte` is `List Byte`; `common.Address` (`[20]byte`)
  is a list of bytes together with a proof that its length is 20.
* `*big.Int` values are `Int` (arbitrary precision, signed).
* A Go function that may panic on a slice expression returns `Except Panic _`;
  a `nil` result of `ParseSwap` is `none`.
-/

namespace DodoSwap

/-! ## Bytes, addresses, hashes -/

/-- Go `byte`. -/
abbrev Byte := Fin 256

/-- The type `common.Address`: `[20]byte`. -/
structure Address where
  bytes : List Byte
  size : bytes.length = 20
deriving DecidableEq

/-- The type `common.Hash`: `[32]byte`. -/
structure Hash where
  bytes : List Byte
  size : bytes.length = 32
deriving DecidableEq

/-- Method `Address.Bytes`: the array viewed as a slice, `a[:]`. -/
def Address.Bytes (a : Address) : List Byte := a.bytes

/-- Runtime panic of a slice expression whose bounds are out of range. -/
inductive Panic where
  | sliceOutOfRange
deriving DecidableEq, Repr

deriving instance DecidableEq for Except

/-- The Go slice expression `b[lo:hi]` on a slice whose capacity is its length:
it panics unless `lo ≤ hi ≤ len(b)`. -/
def slice (b : List Byte) (lo hi : Nat) : Except Panic (List Byte) :=
  if lo ≤ hi ∧ hi ≤ b.length then .ok ((b.take hi).drop lo) else .error .sliceOutOfRange

/-- The Go builtin `copy(dst[off:], src)`, as the new contents of `dst`: it
overwrites `min(len(dst) - off, len(src))` elements starting at `off`. -/
def copyAt (dst : List Byte) (off : Nat) (src : List Byte) : List Byte :=
  dst.take off ++ src.take (dst.length - off) ++ dst.drop (off + min src.length (dst.length - off))

/-- The function `common.BytesToAddress` of go-ethereum (`Address.SetBytes` on a
zero address): a slice longer than 20 bytes is cropped from the left, a
shorter one is right-aligned in the zero array. -/
def BytesToAddress (b : List Byte) : Address :=
  if h : 20 < b.length then
    ⟨b.drop (b.length - 20), by simp only [List.length_drop]; omega⟩
  else
    ⟨List.replicate (20 - b.length) 0 ++ b, by
      simp only [List.length_append, List.length_replicate]; omega⟩

/-! ## Big integers -/

/-- Big-endian accumulation of a byte string, most significant byte first. -/
def bytesToNat (b : List Byte) : Nat :=
  b.foldl (fun acc x => acc * 256 + x.val) 0

/-- Modelled from the spec: `utils.BigIntFromBytes` is not part of the source
at hand; the specification reads it as "big-endian parsing of a fixed byte
count", an unsigned big-endian integer. -/
def BigIntFromBytes (b : List Byte) : Int :=
  Int.ofNat (bytesToNat b)

/-- Modelled from the spec: `utils.BigIntFromPointer` is not part of the source
at hand; the specification has `amountIn()` and `amountOut()` equal to the
stored amounts, so the helper yields the value it is given. -/
def BigIntFromPointer (p : Int) : Int := p

/-- Method `(*big.Int).Cmp` of the Go standard library: `-1`, `0` or `+1`. -/
def Cmp (x y : Int) : Int :=
  if x < y then -1 else if x = y then 0 else 1

/-! ## The package `dodo_swap` -/

/-- DODOSwap implements SwapEvent for DODOSwap protocol. The fields are
unexported and `ParseSwap` is the only constructor in the package; it stores
non-nil `*big.Int` amounts, so an amount is an `Int`. -/
structure DODOSwap where
  poolID : Address
  tokenFrom : Address
  tokenTo : Address
  amountFrom : Int
  amountTo : Int
deriving DecidableEq

/-- The function `isTokenAFirst`: checks if token A is less than token B. -/
def isTokenAFirst (tkA tkB : Address) : Bool :=
  let tokenARep := BigIntFromBytes tkA.Bytes
  let tokenBRep := BigIntFromBytes tkB.Bytes
  decide (Cmp tokenARep tokenBRep < 0)

/-- The zero value of `common.Address`. -/
def zeroAddress : Address := ⟨List.replicate 20 0, by simp⟩

/-- The function `calcPoolID`, on the underlying byte list: the named result
`pool` starts as the zero address and receives two `copy` calls. -/
def calcPoolBytes (tkA tkB : Address) : List Byte :=
  let tokenARep := BigIntFromBytes tkA.Bytes
  let tokenBRep := BigIntFromBytes tkB.Bytes
  let pool := zeroAddress.bytes
  if Cmp tokenARep tokenBRep < 0 then
    let pool := copyAt pool 0 (tkA.Bytes.take 10)
    copyAt pool 10 (tkB.Bytes.take 10)
  else
    let pool := copyAt pool 0 (tkB.Bytes.take 10)
    copyAt pool 10 (tkA.Bytes.take 10)

/-- The function `calcPoolID` returns a pseudo-address derived from the first 10
bytes of each sorted tokenFrom/tokenTo. -/
def calcPoolID (tkA tkB : Address) : Address :=
  ⟨calcPoolBytes tkA tkB, by
    unfold calcPoolBytes
    simp only []
    split <;>
      simp only [copyAt, zeroAddress, List.length_append, List.length_take, List.length_drop,
        List.length_replicate] <;> omega⟩

/-- Modelled from the spec: the package `types` is not part of the source at
hand; `types.Addresses` is the identifier handed to the aggregator and
`types.AddressesB20` the conversion wrapping one 20-byte address. -/
structure Addresses where
  b20 : Address
deriving DecidableEq

/-- Modelled from the spec: the conversion `types.AddressesB20(a)`, the plain
20-byte wrapper. -/
def AddressesB20 (a : Address) : Addresses := ⟨a⟩

/-- Method `PairID` returns a pseudo-address derived from the first 10 bytes of
each token in the pair. -/
def DODOSwap.PairID (s : DODOSwap) : Addresses :=
  AddressesB20 s.poolID

/-- Method `IsToken0To1` returns true if the swap direction is token0 -> token1. -/
def DODOSwap.IsToken0To1 (s : DODOSwap) : Bool :=
  isTokenAFirst s.tokenFrom s.tokenTo

/-- Method `AmountIn` returns the input amount for the swap. -/
def DODOSwap.AmountIn (s : DODOSwap) : Int :=
  if isTokenAFirst s.tokenFrom s.tokenTo then
    BigIntFromPointer s.amountFrom
  else
    BigIntFromPointer s.amountTo

/-- Method `AmountOut` returns the output amount for the swap. -/
def DODOSwap.AmountOut (s : DODOSwap) : Int :=
  if isTokenAFirst s.tokenFrom s.tokenTo then
    BigIntFromPointer s.amountTo
  else
    BigIntFromPointer s.amountFrom

/-- The type `eth.Log` of go-ethereum, restricted to the two fields the package
reads (`Topics` and `Data`). -/
structure Log where
  Topics : List Hash
  Data : List Byte
deriving DecidableEq

/-- The function `ParseSwap` parses a DODOSwap log into a DODOSwap struct; it
returns nil (`none`) if the log is not a valid swap event. -/
def ParseSwap (log : Log) : Except Panic (Option DODOSwap) :=
  if log.Topics.length ≠ 1 ∨ log.Data.length < 128 then
    .ok none
  else do
    let fromToken := BytesToAddress (← slice log.Data 0 32)
    let toToken := BytesToAddress (← slice log.Data 32 64)
    let poolID := calcPoolID fromToken toToken
    let amountFrom := BigIntFromBytes (← slice log.Data 64 96)
    let amountTo := BigIntFromBytes (← slice log.Data 96 128)
    return some
      { poolID := poolID
        tokenFrom := fromToken
        tokenTo := toToken
        amountFrom := amountFrom
        amountTo := amountTo }

/-! ## Reference notions used to state the properties -/

/-- The unsigned big-endian integer written in the `n` bytes `d[off .. off+n)`:
byte `off + i` has weight `256 ^ (n - 1 - i)`. -/
def beValue (d : List Byte) (off n : Nat) : Nat :=
  ∑ i ∈ Finset.range n, (d.getD (off + i) 0).val * 256 ^ (n - 1 - i)

/-- The bytes `d[off .. off+n)` of a byte string. -/
def bytesAt (d : List Byte) (off n : Nat) : List Byte :=
  (d.drop off).take n

/-- The record with the two address slots `[0,32)` and `[32,64)` exchanged and
everything from offset 64 on left in place. -/
def swapAddressSlots (log : Log) : Log :=
  { log with Data := bytesAt log.Data 32 32 ++ bytesAt log.Data 0 32 ++ log.Data.drop 64 }

/-! ## Test scenarios -/

/-- SwapEventSignature for DodoSwap. -/
def SwapEventSignature : Hash :=
  ⟨[0xc2, 0xc0, 0x24, 0x5e, 0x05, 0x6d, 0x5f, 0xb0, 0x95, 0xf0, 0x4c, 0xd6, 0x37, 0x3b, 0xc7, 0x70,
    0x80, 0x2e, 0xbd, 0x1e, 0x6c, 0x91, 0x8e, 0xb7, 0x8f, 0xde, 0xf8, 0x43, 0xcd, 0xb3, 0x7b, 0x0f],
   rfl⟩

/-- A 32-byte slot holding the single byte `x` right-aligned. -/
def slotOfByte (x : Byte) : List Byte := List.replicate 31 0 ++ [x]

/-- Scenario A: tokens `0x00…01`, `0x00…02`, amounts 100 and 200. -/
def scenarioA : Log :=
  ⟨[SwapEventSignature], slotOfByte 1 ++ slotOfByte 2 ++ slotOfByte 100 ++ slotOfByte 200⟩

/-- Scenario B: as scenario A with the two token slots exchanged. -/
def scenarioB : Log :=
  ⟨[SwapEventSignature], slotOfByte 2 ++ slotOfByte 1 ++ slotOfByte 100 ++ slotOfByte 200⟩

/-- Scenario C: a one-topic record whose payload has 127 bytes. -/
def scenarioC : Log :=
  ⟨[SwapEventSignature], scenarioA.Data.take 127⟩

/-- Scenario D: scenario A followed by 32 further payload bytes. -/
def scenarioD : Log :=
  ⟨[SwapEventSignature], scenarioA.Data ++ List.replicate 32 0xff⟩

/-- The address whose last byte is `x` and whose other bytes are zero. -/
def addressOfByte (x : Byte) : Address := ⟨List.replicate 19 0 ++ [x], by simp⟩

/-- The big-endian encoding of `n` in exactly `len` bytes (the value modulo
`256 ^ len`), most significant byte first. -/
def natToBytes : Nat → Nat → List Byte
  | 0, _ => []
  | len + 1, n => natToBytes len (n / 256) ++ [⟨n % 256, Nat.mod_lt n (by decide)⟩]

/-- The payload of a swap event: each token right-aligned in a 32-byte slot
after 12 zero bytes, each amount as a 32-byte big-endian integer. -/
def encodeSwap (tokenFrom tokenTo : Address) (amountFrom amountTo : Nat) : List Byte :=
  (List.replicate 12 0 ++ tokenFrom.bytes) ++ (List.replicate 12 0 ++ tokenTo.bytes) ++
    natToBytes 32 amountFrom ++ natToBytes 32 amountTo

/-- A 32-byte address slot whose 12 padding bytes are all `p` and whose address
is `0x00…x`. -/
def paddedSlot (p x : Byte) : List Byte := List.replicate 12 p ++ List.replicate 19 0 ++ [x]

/-- Scenario A with every padding byte of the two address slots set to `0xff`. -/
def scenarioAPadded : Log :=
  ⟨[SwapEventSignature],
    paddedSlot 0xff 1 ++ paddedSlot 0xff 2 ++ slotOfByte 100 ++ slotOfByte 200⟩

/-- Scenario B with both amounts equal to 100. -/
def scenarioBEqualAmounts : Log :=
  ⟨[SwapEventSignature], slotOfByte 2 ++ slotOfByte 1 ++ slotOfByte 100 ++ slotOfByte 100⟩

/-- A record whose two token slots both hold the address `0x00…01`. -/
def scenarioEqualTokens : Log :=
  ⟨[SwapEventSignature], slotOfByte 1 ++ slotOfByte 1 ++ slotOfByte 100 ++ slotOfByte 200⟩

/-- A DODOSwap value whose stored `poolID` is not the one derived from its
tokens. -/
def staleSwap : DODOSwap := ⟨addressOfByte 9, addressOfByte 1, addressOfByte 2, 100, 200⟩

/-- The address whose first byte is `hi`, whose last byte is `lo` and whose
other bytes are zero. -/
def addressOfBytes (hi lo : Byte) : Address := ⟨[hi] ++ List.replicate 18 0 ++ [lo], by simp⟩

/-! ## Auxiliary facts -/

theorem Address.ext_bytes {a b : Address} (h : a.bytes = b.bytes) : a = b := by
  cases a; cases b; simp_all

theorem slice_eq_ok {b : List Byte} {lo hi : Nat} (h1 : lo ≤ hi) (h2 : hi ≤ b.length) :
    slice b lo hi = .ok (bytesAt b lo (hi - lo)) := by
  simp [slice, h1, h2, bytesAt, List.drop_take]

theorem bytesAt_length {d : List Byte} {off n : Nat} (h : off + n ≤ d.length) :
    (bytesAt d off n).length = n := by
  simp only [bytesAt, List.length_take, List.length_drop]; omega

theorem bytesAt_bytesAt {d : List Byte} {off n k m : Nat} (h : k + m ≤ n) :
    bytesAt (bytesAt d off n) k m = bytesAt d (off + k) m := by
  simp only [bytesAt, List.drop_take, List.take_take, List.drop_drop]
  congr 1
  omega

theorem foldl_acc (l : List Byte) (acc : Nat) :
    l.foldl (fun acc x => acc * 256 + x.val) acc = acc * 256 ^ l.length + bytesToNat l := by
  induction l generalizing acc with
  | nil => simp [bytesToNat]
  | cons x l ih =>
    simp only [List.foldl_cons, List.length_cons, bytesToNat]
    rw [ih, ih (0 * 256 + x.val)]
    ring

theorem bytesToNat_cons (x : Byte) (l : List Byte) :
    bytesToNat (x :: l) = x.val * 256 ^ l.length + bytesToNat l := by
  simp only [bytesToNat, List.foldl_cons]
  rw [foldl_acc]
  simp [bytesToNat]

theorem bytesToNat_lt (l : List Byte) : bytesToNat l < 256 ^ l.length := by
  induction l with
  | nil => simp [bytesToNat]
  | cons x l ih =>
    rw [bytesToNat_cons, List.length_cons, pow_succ]
    have hx : x.val < 256 := x.isLt
    nlinarith

theorem bytesToNat_inj {l1 l2 : List Byte} (hl : l1.length = l2.length)
    (h : bytesToNat l1 = bytesToNat l2) : l1 = l2 := by
  induction l1 generalizing l2 with
  | nil =>
    cases l2 with
    | nil => rfl
    | cons y l2 => simp at hl
  | cons x l1 ih =>
    cases l2 with
    | nil => simp at hl
    | cons y l2 =>
      simp only [List.length_cons, Nat.add_right_cancel_iff] at hl
      rw [bytesToNat_cons, bytesToNat_cons, hl] at h
      have h1 := bytesToNat_lt l1
      have h2 := bytesToNat_lt l2
      rw [hl] at h1
      have hp : 0 < 256 ^ l2.length := by positivity
      have hxy : x.val = y.val := by
        have e1 : (x.val * 256 ^ l2.length + bytesToNat l1) / 256 ^ l2.length = x.val := by
          rw [Nat.add_comm, Nat.add_mul_div_right _ _ hp, Nat.div_eq_of_lt h1, Nat.zero_add]
        have e2 : (y.val * 256 ^ l2.length + bytesToNat l2) / 256 ^ l2.length = y.val := by
          rw [Nat.add_comm, Nat.add_mul_div_right _ _ hp, Nat.div_eq_of_lt h2, Nat.zero_add]
        rw [← e1, ← e2, h]
      have hrest : bytesToNat l1 = bytesToNat l2 := by
        rw [hxy] at h
        omega
      rw [Fin.ext hxy, ih hl hrest]

theorem bytesToNat_eq_beValue (d : List Byte) (off n : Nat) (h : off + n ≤ d.length) :
    bytesToNat (bytesAt d off n) = beValue d off n := by
  induction n generalizing off with
  | zero => simp [bytesAt, bytesToNat, beValue]
  | succ n ih =>
    have hlt : off < d.length := by omega
    have hsplit : bytesAt d off (n + 1) = d.get ⟨off, hlt⟩ :: bytesAt d (off + 1) n := by
      simp only [bytesAt]
      rw [List.drop_eq_getElem_cons hlt, List.take_succ_cons]
      simp
    rw [hsplit, bytesToNat_cons, ih (off + 1) (by omega), bytesAt_length (by omega)]
    simp only [beValue]
    rw [Finset.sum_range_succ']
    have hget : d.getD (off + 0) 0 = d.get ⟨off, hlt⟩ := by
      simp [List.getElem?_eq_getElem hlt]
    rw [hget, Nat.add_comm]
    congr 1
    apply Finset.sum_congr rfl
    intro i hi
    have hi2 : i < n := Finset.mem_range.mp hi
    have e1 : off + 1 + i = off + (i + 1) := by omega
    have e2 : n + 1 - 1 - (i + 1) = n - 1 - i := by omega
    rw [e1, e2]

theorem isTokenAFirst_iff (a b : Address) :
    isTokenAFirst a b = true ↔ bytesToNat a.bytes < bytesToNat b.bytes := by
  simp only [isTokenAFirst, Address.Bytes, BigIntFromBytes, Cmp, decide_eq_true_eq]
  constructor
  · intro h
    by_contra hc
    have hc2 : ¬ ((Int.ofNat (bytesToNat a.bytes)) < Int.ofNat (bytesToNat b.bytes)) := by
      simpa using hc
    rw [if_neg hc2] at h
    split at h <;> omega
  · intro h
    have h2 : (Int.ofNat (bytesToNat a.bytes)) < Int.ofNat (bytesToNat b.bytes) := by
      simpa using h
    rw [if_pos h2]
    omega

theorem copyAt_two (x y : List Byte) (hx : x.length = 10) (hy : y.length = 10) :
    copyAt (copyAt (List.replicate 20 0) 0 x) 10 y = x ++ y := by
  have h1 : copyAt (List.replicate 20 0) 0 x = x ++ List.replicate 10 0 := by
    simp [copyAt, hx, List.take_of_length_le]
  rw [h1]
  simp [copyAt, hx, hy, List.take_of_length_le, List.take_append_of_le_length]

theorem calcPoolID_bytes (a b : Address) :
    (calcPoolID a b).bytes =
      if isTokenAFirst a b then a.bytes.take 10 ++ b.bytes.take 10
      else b.bytes.take 10 ++ a.bytes.take 10 := by
  have ha : (a.bytes.take 10).length = 10 := by simp [a.size]
  have hb : (b.bytes.take 10).length = 10 := by simp [b.size]
  simp only [calcPoolID, calcPoolBytes, isTokenAFirst, Address.Bytes, zeroAddress,
    decide_eq_true_eq]
  split
  · exact copyAt_two _ _ ha hb
  · exact copyAt_two _ _ hb ha

theorem ParseSwap_accept (log : Log) (ht : log.Topics.length = 1) (hd : 128 ≤ log.Data.length) :
    ParseSwap log = .ok (some
      { poolID := calcPoolID (BytesToAddress (bytesAt log.Data 0 32))
          (BytesToAddress (bytesAt log.Data 32 32))
        tokenFrom := BytesToAddress (bytesAt log.Data 0 32)
        tokenTo := BytesToAddress (bytesAt log.Data 32 32)
        amountFrom := BigIntFromBytes (bytesAt log.Data 64 32)
        amountTo := BigIntFromBytes (bytesAt log.Data 96 32) }) := by
  have hc : ¬ (log.Topics.length ≠ 1 ∨ log.Data.length < 128) := by omega
  simp only [ParseSwap, if_neg hc]
  rw [slice_eq_ok (by omega) (by omega), slice_eq_ok (by omega) (by omega),
    slice_eq_ok (by omega) (by omega), slice_eq_ok (by omega) (by omega)]
  rfl

theorem BytesToAddress_slot (d : List Byte) (off : Nat) (h : off + 32 ≤ d.length) :
    (BytesToAddress (bytesAt d off 32)).bytes = bytesAt d (off + 12) 20 := by
  have hl : (bytesAt d off 32).length = 32 := bytesAt_length h
  have h20 : 20 < (bytesAt d off 32).length := by omega
  unfold BytesToAddress
  rw [dif_pos h20]
  show List.drop ((bytesAt d off 32).length - 20) (bytesAt d off 32) = _
  rw [hl]
  have hcrop : List.drop 12 (bytesAt d off 32) = bytesAt (bytesAt d off 32) 12 20 := by
    show _ = List.take 20 (List.drop 12 _)
    rw [List.take_of_length_le]
    rw [List.length_drop, hl]
  rw [hcrop, bytesAt_bytesAt (by omega)]

theorem bytesToNat_address (a : Address) : bytesToNat a.bytes = beValue a.bytes 0 20 := by
  rw [← bytesToNat_eq_beValue a.bytes 0 20 (by rw [a.size])]
  congr 1
  simp only [bytesAt, List.drop_zero]
  rw [List.take_of_length_le (by rw [a.size])]

theorem isTokenAFirst_asymm (a b : Address) (h : isTokenAFirst a b = true) :
    isTokenAFirst b a = false := by
  rw [isTokenAFirst_iff] at h
  rw [Bool.eq_false_iff, Ne, isTokenAFirst_iff]
  omega

theorem eq_of_not_first (a b : Address) (h1 : isTokenAFirst a b = false)
    (h2 : isTokenAFirst b a = false) : a = b := by
  rw [Bool.eq_false_iff, Ne, isTokenAFirst_iff] at h1 h2
  apply Address.ext_bytes
  apply bytesToNat_inj (by rw [a.size, b.size])
  omega

theorem calcPoolID_comm (a b : Address) : calcPoolID a b = calcPoolID b a := by
  apply Address.ext_bytes
  rw [calcPoolID_bytes, calcPoolID_bytes]
  cases hab : isTokenAFirst a b with
  | true => rw [isTokenAFirst_asymm a b hab]; simp
  | false =>
    cases hba : isTokenAFirst b a with
    | true => simp
    | false => rw [eq_of_not_first a b hab hba]

theorem ParseSwap_some_inv (log : Log) (s : DODOSwap) (h : ParseSwap log = .ok (some s)) :
    log.Topics.length = 1 ∧ 128 ≤ log.Data.length := by
  by_contra hc
  have hc2 : log.Topics.length ≠ 1 ∨ log.Data.length < 128 := by omega
  simp [ParseSwap, if_pos hc2] at h

theorem bytesAt_take {d : List Byte} {off n k : Nat} (h : off + n ≤ k) :
    bytesAt (d.take k) off n = bytesAt d off n := by
  simp only [bytesAt, List.drop_take, List.take_take]
  congr 1
  omega

theorem bytesAt_append_left {x z : List Byte} {n : Nat} (hx : x.length = n) :
    bytesAt (x ++ z) 0 n = x := by
  simp only [bytesAt, List.drop_zero]
  rw [← hx, List.take_left]

theorem bytesAt_append_right {x z : List Byte} {n m : Nat} (off : Nat) (hx : x.length = n) :
    bytesAt (x ++ z) (n + off) m = bytesAt z off m := by
  simp only [bytesAt]
  rw [← hx, ← List.drop_drop, List.drop_left]

theorem bytesAt_drop (d : List Byte) (k off n : Nat) :
    bytesAt (d.drop k) off n = bytesAt d (k + off) n := by
  simp only [bytesAt, List.drop_drop]

theorem bytesAt_full {l : List Byte} {n : Nat} (h : l.length = n) : bytesAt l 0 n = l := by
  simp only [bytesAt, List.drop_zero]
  rw [List.take_of_length_le (by omega)]

theorem bytesToNat_append (x y : List Byte) :
    bytesToNat (x ++ y) = bytesToNat x * 256 ^ y.length + bytesToNat y := by
  simp only [bytesToNat, List.foldl_append]
  rw [foldl_acc]
  rfl

theorem natToBytes_length (len n : Nat) : (natToBytes len n).length = len := by
  induction len generalizing n with
  | zero => rfl
  | succ len ih => simp [natToBytes, ih]

theorem bytesToNat_natToBytes (len n : Nat) : bytesToNat (natToBytes len n) = n % 256 ^ len := by
  induction len generalizing n with
  | zero => simp [natToBytes, bytesToNat, Nat.mod_one]
  | succ len ih =>
    simp only [natToBytes]
    rw [bytesToNat_append, ih, pow_succ, Nat.mul_comm (256 ^ len) 256, Nat.mod_mul]
    simp only [List.length_singleton, pow_one, bytesToNat, List.foldl_cons, List.foldl_nil]
    omega

theorem BytesToAddress_padded (a : Address) (p : List Byte) (hp : p.length = 12) :
    BytesToAddress (p ++ a.bytes) = a := by
  apply Address.ext_bytes
  have hl : (p ++ a.bytes).length = 32 := by rw [List.length_append, hp, a.size]
  have h20 : 20 < (p ++ a.bytes).length := by omega
  unfold BytesToAddress
  rw [dif_pos h20]
  show List.drop ((p ++ a.bytes).length - 20) (p ++ a.bytes) = _
  rw [hl]
  show List.drop 12 (p ++ a.bytes) = _
  rw [← hp, List.drop_left]

theorem address_split (a : Address) :
    bytesToNat a.bytes =
      bytesToNat (a.bytes.take 10) * 256 ^ 10 + bytesToNat (a.bytes.drop 10) ∧
    bytesToNat (a.bytes.drop 10) < 256 ^ 10 := by
  have hd : (a.bytes.drop 10).length = 10 := by rw [List.length_drop, a.size]
  constructor
  · conv_lhs => rw [← List.take_append_drop 10 a.bytes]
    rw [bytesToNat_append, hd]
  · have := bytesToNat_lt (a.bytes.drop 10)
    rwa [hd] at this

theorem first10_le_of_not_lt (a b : Address)
    (h : ¬ bytesToNat (a.bytes.take 10) ≤ bytesToNat (b.bytes.take 10)) :
    ¬ bytesToNat a.bytes < bytesToNat b.bytes := by
  obtain ⟨ea, ha⟩ := address_split a
  obtain ⟨eb, hb⟩ := address_split b
  have hP : (256 : Nat) ^ 10 = 1208925819614629174706176 := by norm_num
  rw [hP] at ea eb ha hb
  omega

theorem calcPoolID_by_first10 (a b : Address) :
    (calcPoolID a b).bytes =
      if bytesToNat (a.bytes.take 10) ≤ bytesToNat (b.bytes.take 10)
      then a.bytes.take 10 ++ b.bytes.take 10
      else b.bytes.take 10 ++ a.bytes.take 10 := by
  have hla : (a.bytes.take 10).length = (b.bytes.take 10).length := by simp [a.size, b.size]
  rw [calcPoolID_bytes]
  by_cases hab : isTokenAFirst a b = true
  · rw [if_pos hab]
    rw [isTokenAFirst_iff] at hab
    have hle : bytesToNat (a.bytes.take 10) ≤ bytesToNat (b.bytes.take 10) := by
      by_contra hc
      exact first10_le_of_not_lt a b hc hab
    rw [if_pos hle]
  · rw [if_neg hab]
    by_cases hle : bytesToNat (a.bytes.take 10) ≤ bytesToNat (b.bytes.take 10)
    · rw [if_pos hle]
      have hge : bytesToNat (b.bytes.take 10) ≤ bytesToNat (a.bytes.take 10) := by
        by_contra hc
        have hlt := first10_le_of_not_lt b a hc
        rw [isTokenAFirst_iff] at hab
        obtain ⟨ea, ha⟩ := address_split a
        obtain ⟨eb, hb⟩ := address_split b
        have hP : (256 : Nat) ^ 10 = 1208925819614629174706176 := by norm_num
        rw [hP] at ea eb ha hb
        omega
      rw [bytesToNat_inj hla (Nat.le_antisymm hle hge)]
    · rw [if_neg hle]

theorem calcPoolID_congr_first10 (a b c d : Address) (hac : a.bytes.take 10 = c.bytes.take 10)
    (hbd : b.bytes.take 10 = d.bytes.take 10) : calcPoolID a b = calcPoolID c d := by
  apply Address.ext_bytes
  rw [calcPoolID_by_first10, calcPoolID_by_first10, hac, hbd]

theorem ParseSwap_result (log : Log) (s : DODOSwap) (h : ParseSwap log = .ok (some s)) :
    128 ≤ log.Data.length ∧
    s.poolID = calcPoolID s.tokenFrom s.tokenTo ∧
    s.tokenFrom = BytesToAddress (bytesAt log.Data 0 32) ∧
    s.tokenTo = BytesToAddress (bytesAt log.Data 32 32) ∧
    s.amountFrom = BigIntFromBytes (bytesAt log.Data 64 32) ∧
    s.amountTo = BigIntFromBytes (bytesAt log.Data 96 32) := by
  obtain ⟨ht, hd⟩ := ParseSwap_some_inv log s h
  rw [ParseSwap_accept log ht hd] at h
  injection h with h
  injection h with h
  subst h
  exact ⟨hd, rfl, rfl, rfl, rfl, rfl⟩

theorem bytesAt_four (x y u v : List Byte) (hx : x.length = 32) (hy : y.length = 32)
    (hu : u.length = 32) (hv : v.length = 32) :
    bytesAt (x ++ y ++ u ++ v) 0 32 = x ∧ bytesAt (x ++ y ++ u ++ v) 32 32 = y ∧
    bytesAt (x ++ y ++ u ++ v) 64 32 = u ∧ bytesAt (x ++ y ++ u ++ v) 96 32 = v := by
  simp only [List.append_assoc]
  refine ⟨bytesAt_append_left hx, ?_, ?_, ?_⟩
  · rw [bytesAt_append_right 0 hx, bytesAt_append_left hy]
  · rw [bytesAt_append_right 32 hx, bytesAt_append_right 0 hy, bytesAt_append_left hu]
  · rw [bytesAt_append_right 64 hx, bytesAt_append_right 32 hy, bytesAt_append_right 0 hu,
      bytesAt_full hv]

theorem BigIntFromBytes_natToBytes (x : Int) (h0 : 0 ≤ x) (h1 : x < 2 ^ 256) :
    BigIntFromBytes (natToBytes 32 x.toNat) = x := by
  have hlt : x.toNat < 256 ^ 32 := by
    have e : ((256 ^ 32 : Nat) : Int) = 2 ^ 256 := by norm_num
    have : (x.toNat : Int) < ((256 ^ 32 : Nat) : Int) := by
      rw [Int.toNat_of_nonneg h0, e]
      exact h1
    exact_mod_cast this
  show ((bytesToNat (natToBytes 32 x.toNat) : Nat) : Int) = x
  rw [bytesToNat_natToBytes, Nat.mod_eq_of_lt hlt, Int.toNat_of_nonneg h0]

theorem BigIntFromBytes_range (l : List Byte) (h : l.length = 32) :
    0 ≤ BigIntFromBytes l ∧ BigIntFromBytes l < 2 ^ 256 := by
  have hlt := bytesToNat_lt l
  rw [h] at hlt
  have e : ((256 ^ 32 : Nat) : Int) = 2 ^ 256 := by norm_num
  constructor
  · exact Int.ofNat_nonneg _
  · show ((bytesToNat l : Nat) : Int) < 2 ^ 256
    rw [← e]
    exact_mod_cast hlt

theorem isTokenAFirst_payload (log : Log) (s : DODOSwap) (h : ParseSwap log = .ok (some s)) :
    isTokenAFirst s.tokenFrom s.tokenTo = true ↔
      beValue log.Data 12 20 < beValue log.Data 44 20 := by
  obtain ⟨hd, _, hf, ht, _, _⟩ := ParseSwap_result log s h
  rw [isTokenAFirst_iff, hf, ht, BytesToAddress_slot log.Data 0 (by omega),
    BytesToAddress_slot log.Data 32 (by omega),
    bytesToNat_eq_beValue _ _ _ (by omega), bytesToNat_eq_beValue _ _ _ (by omega)]

theorem isTokenAFirst_self (a : Address) : isTokenAFirst a a = false := by
  rw [Bool.eq_false_iff, Ne, isTokenAFirst_iff]
  omega

theorem first10_value (a : Address) : beValue a.bytes 0 10 = bytesToNat (a.bytes.take 10) := by
  rw [← bytesToNat_eq_beValue a.bytes 0 10 (by rw [a.size]; omega)]
  simp only [bytesAt, List.drop_zero]

theorem halves_of_append (x y : List Byte) (hx : x.length = 10) (hy : y.length = 10) :
    beValue (x ++ y) 0 10 = bytesToNat x ∧ beValue (x ++ y) 10 10 = bytesToNat y := by
  have hl : (x ++ y).length = 20 := by rw [List.length_append, hx, hy]
  constructor
  · rw [← bytesToNat_eq_beValue (x ++ y) 0 10 (by omega), bytesAt_append_left hx]
  · rw [← bytesToNat_eq_beValue (x ++ y) 10 10 (by omega), bytesAt_append_right 0 hx,
      bytesAt_full hy]

theorem BytesToAddress_congr (d1 d2 : List Byte) (off : Nat) (h1 : off + 32 ≤ d1.length)
    (h2 : off + 32 ≤ d2.length) (h : bytesAt d1 (off + 12) 20 = bytesAt d2 (off + 12) 20) :
    BytesToAddress (bytesAt d1 off 32) = BytesToAddress (bytesAt d2 off 32) := by
  apply Address.ext_bytes
  rw [BytesToAddress_slot d1 off h1, BytesToAddress_slot d2 off h2, h]

set_option maxRecDepth 100000

/-! ## The claims -/

/-- C1: for every pair of addresses `a` and `b` (also `a = b`), `calcPoolID a b`
equals `calcPoolID b a`. -/
theorem calcPoolID_symmetric (a b : Address) : calcPoolID a b = calcPoolID b a :=
  calcPoolID_comm a b

/-- C2: `ParseSwap` returns nil exactly when the record does not have exactly
one topic or its payload is shorter than 128 bytes; in every other case it
returns a value and each of the four slice expressions is in range. The
one-topic record with a 127-byte payload (scenario C) is rejected. -/
theorem ParseSwap_nil_iff (log : Log) :
    (ParseSwap log = .ok none ↔ (log.Topics.length ≠ 1 ∨ log.Data.length < 128)) ∧
    (ParseSwap log = .ok none ∨
      ((∃ s, ParseSwap log = .ok (some s)) ∧
        (∃ x, slice log.Data 0 32 = .ok x) ∧ (∃ x, slice log.Data 32 64 = .ok x) ∧
        (∃ x, slice log.Data 64 96 = .ok x) ∧ (∃ x, slice log.Data 96 128 = .ok x))) ∧
    (scenarioC.Topics.length = 1 ∧ scenarioC.Data.length = 127 ∧
      ParseSwap scenarioC = .ok none) := by
  refine ⟨⟨?_, ?_⟩, ?_, by decide⟩
  · intro h
    by_contra hc
    rw [ParseSwap_accept log (by omega) (by omega)] at h
    simp at h
  · intro h
    simp [ParseSwap, if_pos h]
  · by_cases hc : log.Topics.length ≠ 1 ∨ log.Data.length < 128
    · left
      simp [ParseSwap, if_pos hc]
    · right
      refine ⟨⟨_, ParseSwap_accept log (by omega) (by omega)⟩, ⟨_, slice_eq_ok (by omega) (by omega)⟩,
        ⟨_, slice_eq_ok (by omega) (by omega)⟩, ⟨_, slice_eq_ok (by omega) (by omega)⟩,
        ⟨_, slice_eq_ok (by omega) (by omega)⟩⟩

/-- C3: for a record with exactly one topic and a payload `d` of at least 128
bytes, `ParseSwap` returns a value whose `tokenFrom` is the 20 bytes `d[12..32)`,
whose `tokenTo` is the 20 bytes `d[44..64)`, whose `amountFrom` is the unsigned
big-endian integer written in `d[64..96)` and whose `amountTo` is the one
written in `d[96..128)`. -/
theorem ParseSwap_fields (log : Log) (ht : log.Topics.length = 1)
    (hd : 128 ≤ log.Data.length) :
    ∃ s, ParseSwap log = .ok (some s) ∧
      s.tokenFrom.bytes = bytesAt log.Data 12 20 ∧
      s.tokenTo.bytes = bytesAt log.Data 44 20 ∧
      s.amountFrom = (beValue log.Data 64 32 : Int) ∧
      s.amountTo = (beValue log.Data 96 32 : Int) := by
  refine ⟨_, ParseSwap_accept log ht hd, ?_, ?_, ?_, ?_⟩
  · exact BytesToAddress_slot log.Data 0 (by omega)
  · exact BytesToAddress_slot log.Data 32 (by omega)
  · show ((bytesToNat (bytesAt log.Data 64 32) : Nat) : Int) = _
    rw [bytesToNat_eq_beValue _ _ _ (by omega)]
  · show ((bytesToNat (bytesAt log.Data 96 32) : Nat) : Int) = _
    rw [bytesToNat_eq_beValue _ _ _ (by omega)]

/-- Witness of C3: scenario A. -/
theorem ParseSwap_fields_witness :
    scenarioA.Topics.length = 1 ∧ 128 ≤ scenarioA.Data.length ∧
    ∃ s, ParseSwap scenarioA = .ok (some s) ∧
      s.tokenFrom.bytes = bytesAt scenarioA.Data 12 20 ∧
      s.tokenTo.bytes = bytesAt scenarioA.Data 44 20 ∧
      s.amountFrom = (beValue scenarioA.Data 64 32 : Int) ∧
      s.amountTo = (beValue scenarioA.Data 96 32 : Int) :=
  ⟨by decide, by decide, ParseSwap_fields scenarioA (by decide) (by decide)⟩

/-- C4: for every DODOSwap value, the pair (`AmountIn`, `AmountOut`) is
(`amountFrom`, `amountTo`) when `IsToken0To1` is true and (`amountTo`,
`amountFrom`) when it is false. -/
theorem AmountIn_AmountOut_pair (s : DODOSwap) :
    (s.AmountIn, s.AmountOut) =
      if s.IsToken0To1 = true then (s.amountFrom, s.amountTo) else (s.amountTo, s.amountFrom) := by
  unfold DODOSwap.AmountIn DODOSwap.AmountOut DODOSwap.IsToken0To1 BigIntFromPointer
  split <;> rfl

/-- C5: for a successfully parsed record with payload `d`, `IsToken0To1` is true
exactly when the 160-bit big-endian integer in `d[12..32)` is strictly smaller
than the one in `d[44..64)`. -/
theorem IsToken0To1_iff_lt (log : Log) (s : DODOSwap) (h : ParseSwap log = .ok (some s)) :
    s.IsToken0To1 = true ↔ beValue log.Data 12 20 < beValue log.Data 44 20 := by
  obtain ⟨ht, hd⟩ := ParseSwap_some_inv log s h
  rw [ParseSwap_accept log ht hd] at h
  injection h with h
  injection h with h
  subst h
  simp only [DODOSwap.IsToken0To1]
  rw [isTokenAFirst_iff, BytesToAddress_slot log.Data 0 (by omega),
    BytesToAddress_slot log.Data 32 (by omega),
    bytesToNat_eq_beValue _ _ _ (by omega), bytesToNat_eq_beValue _ _ _ (by omega)]

/-- Witness of C5: scenario A and its decoded value. -/
theorem IsToken0To1_iff_lt_witness :
    ParseSwap scenarioA = .ok (some ⟨zeroAddress, addressOfByte 1, addressOfByte 2, 100, 200⟩) ∧
    (DODOSwap.IsToken0To1 ⟨zeroAddress, addressOfByte 1, addressOfByte 2, 100, 200⟩ = true ↔
      beValue scenarioA.Data 12 20 < beValue scenarioA.Data 44 20) :=
  ⟨by decide, IsToken0To1_iff_lt scenarioA _ (by decide)⟩

/-- C6: `calcPoolID a b` is the first 10 bytes of the numerically lesser address
followed by the first 10 bytes of the greater one: `a[0..10) ++ b[0..10)` when
`isTokenAFirst a b` holds, which is when `a` is numerically below `b`, and
`b[0..10) ++ a[0..10)` otherwise. -/
theorem calcPoolID_layout (a b : Address) :
    ((calcPoolID a b).bytes =
      if isTokenAFirst a b = true then bytesAt a.bytes 0 10 ++ bytesAt b.bytes 0 10
      else bytesAt b.bytes 0 10 ++ bytesAt a.bytes 0 10) ∧
    (isTokenAFirst a b = true ↔ beValue a.bytes 0 20 < beValue b.bytes 0 20) ∧
    (calcPoolID a b).bytes.length = 20 := by
  refine ⟨?_, ?_, (calcPoolID a b).size⟩
  · rw [calcPoolID_bytes]
    simp only [bytesAt, List.drop_zero]
  · rw [isTokenAFirst_iff, bytesToNat_address, bytesToNat_address]

/-- C7: the value returned for an accepted record has
`PairID = calcPoolID tokenFrom tokenTo`. -/
theorem PairID_eq_calcPoolID (log : Log) (s : DODOSwap) (h : ParseSwap log = .ok (some s)) :
    s.PairID = AddressesB20 (calcPoolID s.tokenFrom s.tokenTo) := by
  obtain ⟨ht, hd⟩ := ParseSwap_some_inv log s h
  rw [ParseSwap_accept log ht hd] at h
  injection h with h
  injection h with h
  subst h
  rfl

/-- Witness of C7: scenario A and its decoded value. -/
theorem PairID_eq_calcPoolID_witness :
    ParseSwap scenarioA = .ok (some ⟨zeroAddress, addressOfByte 1, addressOfByte 2, 100, 200⟩) ∧
    DODOSwap.PairID ⟨zeroAddress, addressOfByte 1, addressOfByte 2, 100, 200⟩ =
      AddressesB20 (calcPoolID (addressOfByte 1) (addressOfByte 2)) :=
  ⟨by decide, PairID_eq_calcPoolID scenarioA _ (by decide)⟩

/-- C8: for distinct addresses `a` and `b`, exactly one of `isTokenAFirst a b`
and `isTokenAFirst b a` is true. -/
theorem isTokenAFirst_exactly_one (a b : Address) (h : a ≠ b) :
    (isTokenAFirst a b = true ∧ isTokenAFirst b a = false) ∨
    (isTokenAFirst a b = false ∧ isTokenAFirst b a = true) := by
  cases hab : isTokenAFirst a b with
  | true => exact Or.inl ⟨rfl, isTokenAFirst_asymm a b hab⟩
  | false =>
    cases hba : isTokenAFirst b a with
    | true => exact Or.inr ⟨rfl, rfl⟩
    | false => exact absurd (eq_of_not_first a b hab hba) h

/-- Witness of C8: the addresses `0x00…01` and `0x00…02`. -/
theorem isTokenAFirst_exactly_one_witness :
    addressOfByte 1 ≠ addressOfByte 2 ∧
    ((isTokenAFirst (addressOfByte 1) (addressOfByte 2) = true ∧
        isTokenAFirst (addressOfByte 2) (addressOfByte 1) = false) ∨
      (isTokenAFirst (addressOfByte 1) (addressOfByte 2) = false ∧
        isTokenAFirst (addressOfByte 2) (addressOfByte 1) = true)) :=
  ⟨by decide, isTokenAFirst_exactly_one _ _ (by decide)⟩

/-- C9: two one-topic records whose payloads have at least 128 bytes and agree
on their first 128 bytes are both decoded to a value, and to the same one:
the bytes from offset 128 on do not influence the result. -/
theorem ParseSwap_ignores_trailing (l1 l2 : Log) (ht1 : l1.Topics.length = 1)
    (ht2 : l2.Topics.length = 1) (hd1 : 128 ≤ l1.Data.length) (hd2 : 128 ≤ l2.Data.length)
    (heq : l1.Data.take 128 = l2.Data.take 128) :
    ParseSwap l1 = ParseSwap l2 ∧ ∃ s, ParseSwap l1 = .ok (some s) := by
  refine ⟨?_, _, ParseSwap_accept l1 ht1 hd1⟩
  have hb : ∀ off n, off + n ≤ 128 → bytesAt l1.Data off n = bytesAt l2.Data off n := by
    intro off n hle
    rw [← bytesAt_take hle, heq, bytesAt_take hle]
  rw [ParseSwap_accept l1 ht1 hd1, ParseSwap_accept l2 ht2 hd2,
    hb 0 32 (by omega), hb 32 32 (by omega), hb 64 32 (by omega), hb 96 32 (by omega)]

/-- Witness of C9: scenario D, a 160-byte payload whose first 128 bytes are those
of scenario A, decodes exactly like scenario A. -/
theorem ParseSwap_ignores_trailing_witness :
    scenarioD.Data.length = 160 ∧ scenarioD.Data.take 128 = scenarioA.Data.take 128 ∧
    ParseSwap scenarioD = ParseSwap scenarioA ∧ ∃ s, ParseSwap scenarioD = .ok (some s) :=
  ⟨by decide, by decide,
    ParseSwap_ignores_trailing scenarioD scenarioA (by decide) (by decide) (by decide)
      (by decide) (by decide)⟩

/-- C10: for an accepted record whose two token addresses are distinct, the
record with the two address slots exchanged and the amount slots left in place
is accepted too, and its value has the same `PairID`, the negated `IsToken0To1`,
and `AmountIn` and `AmountOut` exchanged. -/
theorem swapAddressSlots_view (log : Log) (s : DODOSwap) (h : ParseSwap log = .ok (some s))
    (hne : s.tokenFrom ≠ s.tokenTo) :
    ∃ t, ParseSwap (swapAddressSlots log) = .ok (some t) ∧
      t.PairID = s.PairID ∧ t.IsToken0To1 = !s.IsToken0To1 ∧
      t.AmountIn = s.AmountOut ∧ t.AmountOut = s.AmountIn := by
  obtain ⟨ht, hd⟩ := ParseSwap_some_inv log s h
  rw [ParseSwap_accept log ht hd] at h
  injection h with h
  injection h with h
  subst h
  have hx : (bytesAt log.Data 32 32).length = 32 := bytesAt_length (by omega)
  have hy : (bytesAt log.Data 0 32).length = 32 := bytesAt_length (by omega)
  have hlen : 128 ≤ (swapAddressSlots log).Data.length := by
    simp only [swapAddressSlots, List.length_append, hx, hy, List.length_drop]
    omega
  have e0 : bytesAt (swapAddressSlots log).Data 0 32 = bytesAt log.Data 32 32 := by
    simp only [swapAddressSlots, List.append_assoc]
    exact bytesAt_append_left hx
  have e1 : bytesAt (swapAddressSlots log).Data 32 32 = bytesAt log.Data 0 32 := by
    simp only [swapAddressSlots, List.append_assoc]
    rw [bytesAt_append_right 0 hx, bytesAt_append_left hy]
  have e2 : bytesAt (swapAddressSlots log).Data 64 32 = bytesAt log.Data 64 32 := by
    simp only [swapAddressSlots, List.append_assoc]
    rw [bytesAt_append_right 32 hx, bytesAt_append_right 0 hy, bytesAt_drop]
  have e3 : bytesAt (swapAddressSlots log).Data 96 32 = bytesAt log.Data 96 32 := by
    simp only [swapAddressSlots, List.append_assoc]
    rw [bytesAt_append_right 64 hx, bytesAt_append_right 32 hy, bytesAt_drop]
  refine ⟨_, ParseSwap_accept (swapAddressSlots log) ht hlen, ?_⟩
  rw [e0, e1, e2, e3]
  simp only [DODOSwap.PairID, DODOSwap.IsToken0To1, DODOSwap.AmountIn, DODOSwap.AmountOut,
    BigIntFromPointer] at hne ⊢
  rw [calcPoolID_comm]
  cases hab : isTokenAFirst (BytesToAddress (bytesAt log.Data 0 32))
      (BytesToAddress (bytesAt log.Data 32 32)) with
  | true => rw [isTokenAFirst_asymm _ _ hab]; simp
  | false =>
    cases hba : isTokenAFirst (BytesToAddress (bytesAt log.Data 32 32))
        (BytesToAddress (bytesAt log.Data 0 32)) with
    | true => simp
    | false => exact absurd (eq_of_not_first _ _ hab hba) hne

/-- Witness of C10: scenario A against scenario B, where B reports
`IsToken0To1 = false`, `AmountIn = 200` and `AmountOut = 100`. -/
theorem swapAddressSlots_view_witness :
    swapAddressSlots scenarioA = scenarioB ∧
    ParseSwap scenarioA = .ok (some ⟨zeroAddress, addressOfByte 1, addressOfByte 2, 100, 200⟩) ∧
    addressOfByte 1 ≠ addressOfByte 2 ∧
    (∃ t, ParseSwap (swapAddressSlots scenarioA) = .ok (some t) ∧
      t.PairID = DODOSwap.PairID ⟨zeroAddress, addressOfByte 1, addressOfByte 2, 100, 200⟩ ∧
      t.IsToken0To1 =
        !DODOSwap.IsToken0To1 ⟨zeroAddress, addressOfByte 1, addressOfByte 2, 100, 200⟩ ∧
      t.AmountIn = DODOSwap.AmountOut ⟨zeroAddress, addressOfByte 1, addressOfByte 2, 100, 200⟩ ∧
      t.AmountOut = DODOSwap.AmountIn ⟨zeroAddress, addressOfByte 1, addressOfByte 2, 100, 200⟩) ∧
    (∃ t, ParseSwap scenarioB = .ok (some t) ∧ t.IsToken0To1 = false ∧
      t.AmountIn = 200 ∧ t.AmountOut = 100) :=
  ⟨by decide, by decide, by decide,
    swapAddressSlots_view scenarioA _ (by decide) (by decide),
    ⟨⟨zeroAddress, addressOfByte 2, addressOfByte 1, 100, 200⟩, by decide, by decide, by decide,
      by decide⟩⟩

/-- C11: decode undoes encode. For addresses `tf`, `tt` and integers `af`, `at`
in `[0, 2^256)`, the one-topic record whose payload is
`(12 zero bytes ++ tf) ++ (12 zero bytes ++ tt) ++ be32 af ++ be32 at` is accepted
and yields `tokenFrom = tf`, `tokenTo = tt`, `amountFrom = af`, `amountTo = at`. -/
theorem ParseSwap_encodeSwap (topic : Hash) (tf tt : Address) (af amt : Int)
    (haf0 : 0 ≤ af) (haf : af < 2 ^ 256) (hat0 : 0 ≤ amt) (hat : amt < 2 ^ 256) :
    ∃ s, ParseSwap ⟨[topic], encodeSwap tf tt af.toNat amt.toNat⟩ = .ok (some s) ∧
      s.tokenFrom = tf ∧ s.tokenTo = tt ∧ s.amountFrom = af ∧ s.amountTo = amt := by
  have hx : (List.replicate 12 (0 : Byte) ++ tf.bytes).length = 32 := by simp [tf.size]
  have hy : (List.replicate 12 (0 : Byte) ++ tt.bytes).length = 32 := by simp [tt.size]
  have hu := natToBytes_length 32 af.toNat
  have hv := natToBytes_length 32 amt.toNat
  obtain ⟨e0, e1, e2, e3⟩ := bytesAt_four _ _ _ _ hx hy hu hv
  have hlen : 128 ≤ (encodeSwap tf tt af.toNat amt.toNat).length := by
    simp only [encodeSwap, List.length_append, List.length_replicate, tf.size, tt.size, hu, hv]
    omega
  refine ⟨_, ParseSwap_accept ⟨[topic], encodeSwap tf tt af.toNat amt.toNat⟩ rfl hlen, ?_, ?_,
    ?_, ?_⟩
  · show BytesToAddress (bytesAt (encodeSwap tf tt af.toNat amt.toNat) 0 32) = tf
    unfold encodeSwap
    rw [e0]
    exact BytesToAddress_padded tf _ (by simp)
  · show BytesToAddress (bytesAt (encodeSwap tf tt af.toNat amt.toNat) 32 32) = tt
    unfold encodeSwap
    rw [e1]
    exact BytesToAddress_padded tt _ (by simp)
  · show BigIntFromBytes (bytesAt (encodeSwap tf tt af.toNat amt.toNat) 64 32) = af
    unfold encodeSwap
    rw [e2]
    exact BigIntFromBytes_natToBytes af haf0 haf
  · show BigIntFromBytes (bytesAt (encodeSwap tf tt af.toNat amt.toNat) 96 32) = amt
    unfold encodeSwap
    rw [e3]
    exact BigIntFromBytes_natToBytes amt hat0 hat

/-- Witness of C11: scenario A is the encoding of `tf = 0x00…01`, `tt = 0x00…02`,
`af = 100`, `at = 200`; it reports `IsToken0To1 = true`, `AmountIn = 100`,
`AmountOut = 200` and a `PairID` of first-10-bytes(`tf`) ++ first-10-bytes(`tt`). -/
theorem ParseSwap_encodeSwap_witness :
    ((0 : Int) ≤ 100 ∧ (100 : Int) < 2 ^ 256 ∧ (0 : Int) ≤ 200 ∧ (200 : Int) < 2 ^ 256) ∧
    (∃ s, ParseSwap ⟨[SwapEventSignature],
          encodeSwap (addressOfByte 1) (addressOfByte 2) (100 : Int).toNat (200 : Int).toNat⟩ =
        .ok (some s) ∧
      s.tokenFrom = addressOfByte 1 ∧ s.tokenTo = addressOfByte 2 ∧
      s.amountFrom = 100 ∧ s.amountTo = 200) ∧
    (⟨[SwapEventSignature],
        encodeSwap (addressOfByte 1) (addressOfByte 2) (100 : Int).toNat (200 : Int).toNat⟩ : Log) =
      scenarioA ∧
    (∃ s, ParseSwap scenarioA = .ok (some s) ∧ s.IsToken0To1 = true ∧ s.AmountIn = 100 ∧
      s.AmountOut = 200 ∧
      s.PairID.b20.bytes =
        bytesAt (addressOfByte 1).bytes 0 10 ++ bytesAt (addressOfByte 2).bytes 0 10) :=
  ⟨⟨by decide, by norm_num, by decide, by norm_num⟩,
    ParseSwap_encodeSwap SwapEventSignature (addressOfByte 1) (addressOfByte 2) 100 200
      (by decide) (by norm_num) (by decide) (by norm_num),
    by decide,
    ⟨⟨zeroAddress, addressOfByte 1, addressOfByte 2, 100, 200⟩, by decide, by decide, by decide,
      by decide, by decide⟩⟩

/-- C12, as stated, fails: the record with tokens `0x00…02`, `0x00…01` and both
amounts 100 has `AmountIn = amountFrom` although `tokenFrom` is not numerically
lower than `tokenTo`. -/
theorem AmountIn_iff_lt_fails :
    ParseSwap scenarioBEqualAmounts =
      .ok (some ⟨zeroAddress, addressOfByte 2, addressOfByte 1, 100, 100⟩) ∧
    ¬ (DODOSwap.AmountIn ⟨zeroAddress, addressOfByte 2, addressOfByte 1, 100, 100⟩ =
          DODOSwap.amountFrom ⟨zeroAddress, addressOfByte 2, addressOfByte 1, 100, 100⟩ ↔
        beValue scenarioBEqualAmounts.Data 12 20 < beValue scenarioBEqualAmounts.Data 44 20) := by
  have hp : ParseSwap scenarioBEqualAmounts =
      .ok (some ⟨zeroAddress, addressOfByte 2, addressOfByte 1, 100, 100⟩) := by decide
  refine ⟨hp, ?_⟩
  rw [← isTokenAFirst_payload scenarioBEqualAmounts _ hp]
  decide

/-- C12, amended: for a successfully decoded record, `AmountIn = amountFrom` when
`tokenFrom` is numerically lower than `tokenTo` and `AmountIn = amountTo`
otherwise; when the two amounts differ, `AmountIn = amountFrom` holds exactly
when `tokenFrom` is numerically lower than `tokenTo`. -/
theorem AmountIn_selection (log : Log) (s : DODOSwap) (h : ParseSwap log = .ok (some s)) :
    (beValue log.Data 12 20 < beValue log.Data 44 20 → s.AmountIn = s.amountFrom) ∧
    (¬ beValue log.Data 12 20 < beValue log.Data 44 20 → s.AmountIn = s.amountTo) ∧
    (s.amountFrom ≠ s.amountTo →
      (s.AmountIn = s.amountFrom ↔ beValue log.Data 12 20 < beValue log.Data 44 20)) := by
  rw [← isTokenAFirst_payload log s h]
  unfold DODOSwap.AmountIn BigIntFromPointer
  refine ⟨fun hlt => by rw [if_pos hlt], fun hlt => by rw [if_neg hlt], fun hne => ?_⟩
  constructor
  · intro he
    by_contra hlt
    rw [if_neg hlt] at he
    exact hne he.symm
  · intro hlt
    rw [if_pos hlt]

/-- Witness of C12 (amended): scenario A and its decoded value. -/
theorem AmountIn_selection_witness :
    ParseSwap scenarioA = .ok (some ⟨zeroAddress, addressOfByte 1, addressOfByte 2, 100, 200⟩) ∧
    (beValue scenarioA.Data 12 20 < beValue scenarioA.Data 44 20 →
      DODOSwap.AmountIn ⟨zeroAddress, addressOfByte 1, addressOfByte 2, 100, 200⟩ = 100) ∧
    (¬ beValue scenarioA.Data 12 20 < beValue scenarioA.Data 44 20 →
      DODOSwap.AmountIn ⟨zeroAddress, addressOfByte 1, addressOfByte 2, 100, 200⟩ = 200) ∧
    ((100 : Int) ≠ 200 →
      (DODOSwap.AmountIn ⟨zeroAddress, addressOfByte 1, addressOfByte 2, 100, 200⟩ = 100 ↔
        beValue scenarioA.Data 12 20 < beValue scenarioA.Data 44 20)) :=
  ⟨by decide, AmountIn_selection scenarioA _ (by decide)⟩

/-- C13, the code at scenario B (tokens `0x00…02`, `0x00…01`, amounts 100, 200):
the record is accepted with `amountFrom = 100` and `amountTo = 200`, and
`AmountIn` is 200, the amount paired with `tokenTo`, while `AmountOut` is 100. -/
theorem AmountIn_scenarioB :
    ParseSwap scenarioB = .ok (some ⟨zeroAddress, addressOfByte 2, addressOfByte 1, 100, 200⟩) ∧
    DODOSwap.amountFrom ⟨zeroAddress, addressOfByte 2, addressOfByte 1, 100, 200⟩ = 100 ∧
    DODOSwap.AmountIn ⟨zeroAddress, addressOfByte 2, addressOfByte 1, 100, 200⟩ = 200 ∧
    DODOSwap.AmountOut ⟨zeroAddress, addressOfByte 2, addressOfByte 1, 100, 200⟩ = 100 ∧
    DODOSwap.AmountIn ⟨zeroAddress, addressOfByte 2, addressOfByte 1, 100, 200⟩ ≠
      DODOSwap.amountFrom ⟨zeroAddress, addressOfByte 2, addressOfByte 1, 100, 200⟩ := by
  decide

/-- C14: pool identifiers collide. There are addresses `a`, `b`, `c`, `d` with
different unordered pairs `{a, b}` and `{c, d}` and the same `calcPoolID`; and
any two pairs whose members agree on their first 10 bytes get the same
identifier. -/
theorem calcPoolID_collides :
    (∃ a b c d : Address, ¬ ((a = c ∧ b = d) ∨ (a = d ∧ b = c)) ∧
      calcPoolID a b = calcPoolID c d) ∧
    (∀ a b c d : Address,
      (bytesAt a.bytes 0 10 = bytesAt c.bytes 0 10 ∧
          bytesAt b.bytes 0 10 = bytesAt d.bytes 0 10) ∨
        (bytesAt a.bytes 0 10 = bytesAt d.bytes 0 10 ∧
          bytesAt b.bytes 0 10 = bytesAt c.bytes 0 10) →
      calcPoolID a b = calcPoolID c d) := by
  constructor
  · exact ⟨addressOfByte 1, addressOfByte 2, addressOfByte 3, addressOfByte 4, by decide,
      calcPoolID_congr_first10 _ _ _ _ (by decide) (by decide)⟩
  · intro a b c d h
    simp only [bytesAt, List.drop_zero] at h
    rcases h with ⟨h1, h2⟩ | ⟨h1, h2⟩
    · exact calcPoolID_congr_first10 a b c d h1 h2
    · rw [calcPoolID_comm c d]
      exact calcPoolID_congr_first10 a b d c h1 h2

/-- Witness of C14: the pairs (`0x00…01`, `0x00…02`) and (`0x00…03`, `0x00…04`). -/
theorem calcPoolID_collides_witness :
    ¬ ((addressOfByte 1 = addressOfByte 3 ∧ addressOfByte 2 = addressOfByte 4) ∨
        (addressOfByte 1 = addressOfByte 4 ∧ addressOfByte 2 = addressOfByte 3)) ∧
    bytesAt (addressOfByte 1).bytes 0 10 = bytesAt (addressOfByte 3).bytes 0 10 ∧
    bytesAt (addressOfByte 2).bytes 0 10 = bytesAt (addressOfByte 4).bytes 0 10 ∧
    calcPoolID (addressOfByte 1) (addressOfByte 2) =
      calcPoolID (addressOfByte 3) (addressOfByte 4) :=
  ⟨by decide, by decide, by decide,
    calcPoolID_collides.2 _ _ _ _ (Or.inl ⟨by decide, by decide⟩)⟩

/-- C15: for an accepted record, `amountFrom` and `amountTo`, and therefore
`AmountIn` and `AmountOut`, are integers `x` with `0 ≤ x < 2^256`. -/
theorem amounts_in_range (log : Log) (s : DODOSwap) (h : ParseSwap log = .ok (some s)) :
    (0 ≤ s.amountFrom ∧ s.amountFrom < 2 ^ 256) ∧ (0 ≤ s.amountTo ∧ s.amountTo < 2 ^ 256) ∧
    (0 ≤ s.AmountIn ∧ s.AmountIn < 2 ^ 256) ∧ (0 ≤ s.AmountOut ∧ s.AmountOut < 2 ^ 256) := by
  obtain ⟨hd, _, _, _, hf, ht⟩ := ParseSwap_result log s h
  have rf : 0 ≤ s.amountFrom ∧ s.amountFrom < 2 ^ 256 := by
    rw [hf]
    exact BigIntFromBytes_range _ (bytesAt_length (by omega))
  have rt : 0 ≤ s.amountTo ∧ s.amountTo < 2 ^ 256 := by
    rw [ht]
    exact BigIntFromBytes_range _ (bytesAt_length (by omega))
  refine ⟨rf, rt, ?_, ?_⟩
  · unfold DODOSwap.AmountIn BigIntFromPointer
    split
    · exact rf
    · exact rt
  · unfold DODOSwap.AmountOut BigIntFromPointer
    split
    · exact rt
    · exact rf

/-- Witness of C15: scenario A and its decoded value. -/
theorem amounts_in_range_witness :
    ParseSwap scenarioA = .ok (some ⟨zeroAddress, addressOfByte 1, addressOfByte 2, 100, 200⟩) ∧
    ((0 : Int) ≤ 100 ∧ (100 : Int) < 2 ^ 256) ∧ ((0 : Int) ≤ 200 ∧ (200 : Int) < 2 ^ 256) ∧
    (0 ≤ DODOSwap.AmountIn ⟨zeroAddress, addressOfByte 1, addressOfByte 2, 100, 200⟩ ∧
      DODOSwap.AmountIn ⟨zeroAddress, addressOfByte 1, addressOfByte 2, 100, 200⟩ < 2 ^ 256) ∧
    (0 ≤ DODOSwap.AmountOut ⟨zeroAddress, addressOfByte 1, addressOfByte 2, 100, 200⟩ ∧
      DODOSwap.AmountOut ⟨zeroAddress, addressOfByte 1, addressOfByte 2, 100, 200⟩ < 2 ^ 256) :=
  ⟨by decide,
    amounts_in_range scenarioA ⟨zeroAddress, addressOfByte 1, addressOfByte 2, 100, 200⟩
      (by decide)⟩

/-- C16, as stated, fails: a DODOSwap value whose stored `poolID` is `0x00…09`
and whose tokens are `0x00…01`, `0x00…02` has a `PairID` different from
`calcPoolID tokenFrom tokenTo`, and different from the `PairID` of the decoded
scenario A, which has the same two tokens. -/
theorem PairID_not_derived :
    staleSwap.PairID ≠ AddressesB20 (calcPoolID staleSwap.tokenFrom staleSwap.tokenTo) ∧
    (staleSwap.tokenFrom =
        DODOSwap.tokenFrom ⟨zeroAddress, addressOfByte 1, addressOfByte 2, 100, 200⟩ ∧
      staleSwap.tokenTo =
        DODOSwap.tokenTo ⟨zeroAddress, addressOfByte 1, addressOfByte 2, 100, 200⟩ ∧
      staleSwap.PairID ≠
        DODOSwap.PairID ⟨zeroAddress, addressOfByte 1, addressOfByte 2, 100, 200⟩) := by
  decide

/-- C16, amended: `PairID` returns the stored `poolID` field; for every value
returned by `ParseSwap` it equals `calcPoolID tokenFrom tokenTo`, so two values
returned by `ParseSwap` with the same `tokenFrom` and `tokenTo` have the same
`PairID`. -/
theorem PairID_stored (l1 l2 : Log) (s1 s2 : DODOSwap) (h1 : ParseSwap l1 = .ok (some s1))
    (h2 : ParseSwap l2 = .ok (some s2)) (hf : s1.tokenFrom = s2.tokenFrom)
    (ht : s1.tokenTo = s2.tokenTo) :
    (∀ s : DODOSwap, s.PairID = AddressesB20 s.poolID) ∧
    s1.PairID = AddressesB20 (calcPoolID s1.tokenFrom s1.tokenTo) ∧
    s1.PairID = s2.PairID := by
  obtain ⟨_, hp1, _⟩ := ParseSwap_result l1 s1 h1
  obtain ⟨_, hp2, _⟩ := ParseSwap_result l2 s2 h2
  refine ⟨fun _ => rfl, ?_, ?_⟩
  · simp only [DODOSwap.PairID]
    rw [← hp1]
  · simp only [DODOSwap.PairID]
    rw [hp1, hp2, hf, ht]

/-- Witness of C16 (amended): scenario A and scenario D. -/
theorem PairID_stored_witness :
    ParseSwap scenarioA = .ok (some ⟨zeroAddress, addressOfByte 1, addressOfByte 2, 100, 200⟩) ∧
    ParseSwap scenarioD = .ok (some ⟨zeroAddress, addressOfByte 1, addressOfByte 2, 100, 200⟩) ∧
    ((∀ s : DODOSwap, s.PairID = AddressesB20 s.poolID) ∧
      DODOSwap.PairID ⟨zeroAddress, addressOfByte 1, addressOfByte 2, 100, 200⟩ =
        AddressesB20 (calcPoolID (addressOfByte 1) (addressOfByte 2)) ∧
      DODOSwap.PairID ⟨zeroAddress, addressOfByte 1, addressOfByte 2, 100, 200⟩ =
        DODOSwap.PairID ⟨zeroAddress, addressOfByte 1, addressOfByte 2, 100, 200⟩) :=
  ⟨by decide, by decide,
    PairID_stored scenarioA scenarioD ⟨zeroAddress, addressOfByte 1, addressOfByte 2, 100, 200⟩
      ⟨zeroAddress, addressOfByte 1, addressOfByte 2, 100, 200⟩ (by decide) (by decide) rfl rfl⟩

/-- C17: equal tokens give a well-defined result. For every address `a`,
`isTokenAFirst a a` is false and `calcPoolID a a` is `a[0..10) ++ a[0..10)`; for
an accepted record whose two token addresses are equal, `IsToken0To1` is false,
`AmountIn = amountTo` and `AmountOut = amountFrom`. -/
theorem equal_tokens_view (log : Log) (s : DODOSwap) (h : ParseSwap log = .ok (some s))
    (heq : bytesAt log.Data 12 20 = bytesAt log.Data 44 20) :
    (∀ a : Address, isTokenAFirst a a = false ∧
      (calcPoolID a a).bytes = bytesAt a.bytes 0 10 ++ bytesAt a.bytes 0 10) ∧
    s.tokenFrom = s.tokenTo ∧
    s.IsToken0To1 = false ∧ s.AmountIn = s.amountTo ∧ s.AmountOut = s.amountFrom := by
  obtain ⟨hd, _, hf, ht, _, _⟩ := ParseSwap_result log s h
  have htok : s.tokenFrom = s.tokenTo := by
    rw [hf, ht]
    apply Address.ext_bytes
    rw [BytesToAddress_slot log.Data 0 (by omega), BytesToAddress_slot log.Data 32 (by omega)]
    exact heq
  have hfalse : isTokenAFirst s.tokenFrom s.tokenTo = false := by
    rw [htok]
    exact isTokenAFirst_self _
  refine ⟨fun a => ⟨isTokenAFirst_self a, ?_⟩, htok, hfalse, ?_, ?_⟩
  · rw [calcPoolID_bytes, isTokenAFirst_self]
    simp only [bytesAt, List.drop_zero, Bool.false_eq_true, if_false]
  · unfold DODOSwap.AmountIn BigIntFromPointer
    rw [hfalse]
    rfl
  · unfold DODOSwap.AmountOut BigIntFromPointer
    rw [hfalse]
    rfl

/-- Witness of C17: the record whose two token slots both hold `0x00…01`. -/
theorem equal_tokens_view_witness :
    ParseSwap scenarioEqualTokens =
      .ok (some ⟨zeroAddress, addressOfByte 1, addressOfByte 1, 100, 200⟩) ∧
    bytesAt scenarioEqualTokens.Data 12 20 = bytesAt scenarioEqualTokens.Data 44 20 ∧
    ((∀ a : Address, isTokenAFirst a a = false ∧
        (calcPoolID a a).bytes = bytesAt a.bytes 0 10 ++ bytesAt a.bytes 0 10) ∧
      addressOfByte 1 = addressOfByte 1 ∧
      DODOSwap.IsToken0To1 ⟨zeroAddress, addressOfByte 1, addressOfByte 1, 100, 200⟩ = false ∧
      DODOSwap.AmountIn ⟨zeroAddress, addressOfByte 1, addressOfByte 1, 100, 200⟩ = 200 ∧
      DODOSwap.AmountOut ⟨zeroAddress, addressOfByte 1, addressOfByte 1, 100, 200⟩ = 100) :=
  ⟨by decide, by decide,
    equal_tokens_view scenarioEqualTokens
      ⟨zeroAddress, addressOfByte 1, addressOfByte 1, 100, 200⟩ (by decide) (by decide)⟩

/-- C18: the padding of the address slots is not validated and does not
influence the result. Two accepted records whose payloads agree on bytes
`[12,32)` and on everything from offset 44 on, so that they differ at most in
bytes `[0,12)` and `[32,44)`, are decoded to the same value. -/
theorem ParseSwap_ignores_padding (l1 l2 : Log) (ht1 : l1.Topics.length = 1)
    (ht2 : l2.Topics.length = 1) (hd1 : 128 ≤ l1.Data.length) (hd2 : 128 ≤ l2.Data.length)
    (hfrom : bytesAt l1.Data 12 20 = bytesAt l2.Data 12 20)
    (hrest : l1.Data.drop 44 = l2.Data.drop 44) :
    ParseSwap l1 = ParseSwap l2 ∧ ∃ s, ParseSwap l1 = .ok (some s) := by
  refine ⟨?_, _, ParseSwap_accept l1 ht1 hd1⟩
  have h44 : ∀ off n, bytesAt l1.Data (44 + off) n = bytesAt l2.Data (44 + off) n := by
    intro off n
    rw [← bytesAt_drop, hrest, bytesAt_drop]
  have e0 : BytesToAddress (bytesAt l1.Data 0 32) = BytesToAddress (bytesAt l2.Data 0 32) :=
    BytesToAddress_congr l1.Data l2.Data 0 (by omega) (by omega) hfrom
  have e1 : BytesToAddress (bytesAt l1.Data 32 32) = BytesToAddress (bytesAt l2.Data 32 32) :=
    BytesToAddress_congr l1.Data l2.Data 32 (by omega) (by omega) (h44 0 20)
  have e2 : bytesAt l1.Data 64 32 = bytesAt l2.Data 64 32 := h44 20 32
  have e3 : bytesAt l1.Data 96 32 = bytesAt l2.Data 96 32 := h44 52 32
  rw [ParseSwap_accept l1 ht1 hd1, ParseSwap_accept l2 ht2 hd2, e0, e1, e2, e3]

/-- Witness of C18: scenario A with the padding bytes of both address slots set
to `0xff` is a different payload that decodes exactly like scenario A. -/
theorem ParseSwap_ignores_padding_witness :
    scenarioAPadded.Data ≠ scenarioA.Data ∧
    bytesAt scenarioAPadded.Data 12 20 = bytesAt scenarioA.Data 12 20 ∧
    scenarioAPadded.Data.drop 44 = scenarioA.Data.drop 44 ∧
    (ParseSwap scenarioAPadded = ParseSwap scenarioA ∧
      ∃ s, ParseSwap scenarioAPadded = .ok (some s)) :=
  ⟨by decide, by decide, by decide,
    ParseSwap_ignores_padding scenarioAPadded scenarioA (by decide) (by decide) (by decide)
      (by decide) (by decide) (by decide)⟩

/-- C19: `calcPoolID` depends only on the 10-byte prefixes of its arguments.
`calcPoolID a b` is `lo ++ hi`, with `lo` and `hi` the numerically smaller and
larger (as 80-bit big-endian integers) of `a[0..10)` and `b[0..10)`; the first
half of the pool id is numerically at most its second half; and addresses with
the same 10-byte prefixes give the same pool id. -/
theorem calcPoolID_first10_only (a b : Address) :
    ((calcPoolID a b).bytes =
      if beValue a.bytes 0 10 ≤ beValue b.bytes 0 10
      then bytesAt a.bytes 0 10 ++ bytesAt b.bytes 0 10
      else bytesAt b.bytes 0 10 ++ bytesAt a.bytes 0 10) ∧
    beValue (calcPoolID a b).bytes 0 10 ≤ beValue (calcPoolID a b).bytes 10 10 ∧
    (∀ a2 b2 : Address, bytesAt a2.bytes 0 10 = bytesAt a.bytes 0 10 →
      bytesAt b2.bytes 0 10 = bytesAt b.bytes 0 10 → calcPoolID a2 b2 = calcPoolID a b) := by
  have ha : (a.bytes.take 10).length = 10 := by simp [a.size]
  have hb : (b.bytes.take 10).length = 10 := by simp [b.size]
  refine ⟨?_, ?_, ?_⟩
  · rw [calcPoolID_by_first10, first10_value, first10_value]
    simp only [bytesAt, List.drop_zero]
  · rw [calcPoolID_by_first10]
    by_cases hle : bytesToNat (a.bytes.take 10) ≤ bytesToNat (b.bytes.take 10)
    · rw [if_pos hle]
      obtain ⟨e1, e2⟩ := halves_of_append _ _ ha hb
      rw [e1, e2]
      exact hle
    · rw [if_neg hle]
      obtain ⟨e1, e2⟩ := halves_of_append _ _ hb ha
      rw [e1, e2]
      omega
  · intro a2 b2 h1 h2
    simp only [bytesAt, List.drop_zero] at h1 h2
    exact calcPoolID_congr_first10 a2 b2 a b h1 h2

/-- Witness of C19: the addresses `0x02…01` and `0x01…09`, against `0x02…07` and
`0x01…03`, which have the same first 10 bytes and other last bytes. -/
theorem calcPoolID_first10_only_witness :
    addressOfBytes 2 7 ≠ addressOfBytes 2 1 ∧ addressOfBytes 1 3 ≠ addressOfBytes 1 9 ∧
    bytesAt (addressOfBytes 2 7).bytes 0 10 = bytesAt (addressOfBytes 2 1).bytes 0 10 ∧
    bytesAt (addressOfBytes 1 3).bytes 0 10 = bytesAt (addressOfBytes 1 9).bytes 0 10 ∧
    calcPoolID (addressOfBytes 2 7) (addressOfBytes 1 3) =
      calcPoolID (addressOfBytes 2 1) (addressOfBytes 1 9) ∧
    (calcPoolID (addressOfBytes 2 1) (addressOfBytes 1 9)).bytes =
      bytesAt (addressOfBytes 1 9).bytes 0 10 ++ bytesAt (addressOfBytes 2 1).bytes 0 10 :=
  ⟨by decide, by decide, by decide, by decide,
    (calcPoolID_first10_only (addressOfBytes 2 1) (addressOfBytes 1 9)).2.2 _ _ (by decide)
      (by decide),
    by decide⟩

end DodoSwap
